import Mathlib

/-!
Verification of the patient trend-normalization core of the `my-agent`
clinical-triage application (`skills.py`).

Numeric measurement values are embedded as rationals (`ℚ`); Python dicts are
embedded as association lists (`List (String × _)`) preserving insertion
order, since Python dictionaries iterate in insertion order and have unique
keys.  Fallible operations return `Except String _`; the shared key-value
memory is explicit state threaded through each skill.
-/

namespace Skills

/-- A named measurement series: the `values` list of a lab or vital entry,
chronologically ascending (mirrors the `{"values": [...]}` objects). -/
structure RawSeries where
  values : List ℚ
  deriving Repr, DecidableEq

/-- Trend direction strings produced by `normalize_patient`. -/
inductive TrendDirection where
  | increasing
  | decreasing
  | stable
  deriving Repr, DecidableEq

/-- Rendering of a `TrendDirection` as the string the code stores. -/
def TrendDirection.toStr : TrendDirection → String
  | .increasing => "increasing"
  | .decreasing => "decreasing"
  | .stable => "stable"

/-- The trend comparison on the last two values (`skills.py` lines 50-56):
`values[-1] > values[-2] * 1.1` → increasing, `values[-1] < values[-2] * 0.9`
→ decreasing, otherwise stable. -/
def trendOfPair (prev curr : ℚ) : TrendDirection :=
  if curr > prev * (11/10) then .increasing
  else if curr < prev * (9/10) then .decreasing
  else .stable

/-- Per-vital trend computation (`skills.py` lines 48-58): series of length
≥ 2 compare the last two values, a singleton is `stable`, an empty series
yields no entry (`none`). -/
def vitalTrend (values : List ℚ) : Option TrendDirection :=
  match values.reverse with
  | [] => none
  | [_] => some .stable
  | curr :: prev :: _ => some (trendOfPair prev curr)

/-- The `trends` dict built by the vitals loop of `normalize_patient`
(lines 46-58): one entry per vital whose series is non-empty. -/
def computeTrends (vitals : List (String × RawSeries)) :
    List (String × TrendDirection) :=
  vitals.filterMap fun nv => (vitalTrend nv.2.values).map fun d => (nv.1, d)

/-- The `recent_labs` dict built by the labs loop of `normalize_patient`
(lines 61-65): each non-empty lab series maps to its last value. -/
def computeRecentLabs (labs : List (String × RawSeries)) :
    List (String × ℚ) :=
  labs.filterMap fun nv => (nv.2.values.getLast?).map fun v => (nv.1, v)

end Skills

namespace Skills

lemma reverse_append_pair (rest : List ℚ) (prev curr : ℚ) :
    (rest ++ [prev, curr]).reverse = curr :: prev :: rest.reverse := by
  simp

lemma vitalTrend_append (rest : List ℚ) (prev curr : ℚ) :
    vitalTrend (rest ++ [prev, curr]) = some (trendOfPair prev curr) := by
  unfold vitalTrend
  rw [reverse_append_pair]

lemma vitalTrend_eq_none_iff (values : List ℚ) :
    vitalTrend values = none ↔ values = [] := by
  constructor
  · intro h
    by_contra hne
    rcases List.exists_cons_of_ne_nil hne with ⟨a, t, rfl⟩
    rcases hr : (a :: t).reverse with _ | ⟨c, rest⟩
    · simp at hr
    · unfold vitalTrend at h
      rw [hr] at h
      cases rest <;> simp at h
  · rintro rfl
    rfl

end Skills

namespace Skills

/-- C1 counterexample: for the series `[-10, -10]` the last value is
strictly less than `0.9` times the second-to-last (`-10 < -9`), yet the
direction is `increasing` (the `curr > prev * 1.1` branch fires first:
`-10 > -11`), so the claimed "decreasing iff `curr < 0.9 * prev`" is false. -/
theorem trend_direction_claim_counterexample :
    ((-10 : ℚ) < (9/10) * (-10)) ∧
      vitalTrend [(-10 : ℚ), -10] = some .increasing := by
  constructor
  · norm_num
  · show vitalTrend ([] ++ [(-10 : ℚ), -10]) = some .increasing
    rw [vitalTrend_append]
    unfold trendOfPair
    norm_num

/-- C1 (amended): `increasing` iff `curr > 1.1 * prev` unconditionally;
`decreasing` iff the increasing test fails and `curr < 0.9 * prev` (the
increasing branch takes precedence); `stable` iff neither comparison holds;
when `prev ≥ 0`, exact equality at either boundary yields `stable`;
singletons are `stable`. -/
theorem trend_direction_spec (values rest : List ℚ) (prev curr a : ℚ)
    (h : values = rest ++ [prev, curr]) :
    (vitalTrend values = some .increasing ↔ curr > (11/10) * prev) ∧
    (vitalTrend values = some .decreasing ↔
      (¬ curr > (11/10) * prev ∧ curr < (9/10) * prev)) ∧
    (vitalTrend values = some .stable ↔
      (¬ curr > (11/10) * prev ∧ ¬ curr < (9/10) * prev)) ∧
    (0 ≤ prev → curr = (11/10) * prev → vitalTrend values = some .stable) ∧
    (0 ≤ prev → curr = (9/10) * prev → vitalTrend values = some .stable) ∧
    vitalTrend [a] = some .stable := by
  subst h
  rw [vitalTrend_append]
  have hcomm1 : prev * (11/10) = (11/10) * prev := by ring
  have hcomm2 : prev * (9/10) = (9/10) * prev := by ring
  unfold trendOfPair
  rw [hcomm1, hcomm2]
  refine ⟨?_, ?_, ?_, ?_, ?_, ?_⟩
  · by_cases h1 : curr > (11/10) * prev
    · simp [h1]
    · by_cases h2 : curr < (9/10) * prev <;> simp [h1, h2]
  · by_cases h1 : curr > (11/10) * prev
    · simp [h1]
    · by_cases h2 : curr < (9/10) * prev <;> simp [h1, h2]
  · by_cases h1 : curr > (11/10) * prev
    · simp [h1]
    · by_cases h2 : curr < (9/10) * prev <;> simp [h1, h2]
  · intro hprev heq
    have h1 : ¬ curr > (11/10) * prev := by
      rw [heq]; exact lt_irrefl _
    have h2 : ¬ curr < (9/10) * prev := by
      rw [heq]
      intro hlt
      nlinarith
    simp [h1, h2]
  · intro hprev heq
    have h1 : ¬ curr > (11/10) * prev := by
      rw [heq]
      intro hgt
      nlinarith
    have h2 : ¬ curr < (9/10) * prev := by
      rw [heq]; exact lt_irrefl _
    simp [h1, h2]
  · rfl

/-- Witness for C1 at the concrete series `[10, 12]` (strictly more than a
10% rise, so `increasing`). -/
theorem trend_direction_spec_witness :
    vitalTrend [(10 : ℚ), 12] = some .increasing :=
  (trend_direction_spec [(10 : ℚ), 12] [] 10 12 0 rfl).1.mpr (by norm_num)

end Skills

namespace Skills

/-- C6: the direction of a series of length ≥ 2 is a function of its last
two samples only — two series agreeing on their final two values get the
same direction, whatever their earlier history. -/
theorem trend_depends_only_on_last_two
    (vs1 vs2 rest1 rest2 : List ℚ) (prev curr : ℚ)
    (h1 : vs1 = rest1 ++ [prev, curr]) (h2 : vs2 = rest2 ++ [prev, curr]) :
    vitalTrend vs1 = vitalTrend vs2 := by
  subst h1; subst h2
  rw [vitalTrend_append, vitalTrend_append]

/-- Witness for C6: `[1, 5, 10, 12]` and `[100, 10, 12]` share the last two
samples and get the same direction. -/
theorem trend_depends_only_on_last_two_witness :
    vitalTrend [(1 : ℚ), 5, 10, 12] = vitalTrend [(100 : ℚ), 10, 12] :=
  trend_depends_only_on_last_two _ _ [1, 5] [100] 10 12 rfl rfl

lemma mem_map_fst_computeTrends (vitals : List (String × RawSeries))
    (name : String) :
    name ∈ (computeTrends vitals).map Prod.fst ↔
      ∃ s : RawSeries, (name, s) ∈ vitals ∧ s.values ≠ [] := by
  unfold computeTrends
  rw [List.mem_map]
  constructor
  · rintro ⟨⟨n, d⟩, hmem, rfl⟩
    rw [List.mem_filterMap] at hmem
    obtain ⟨⟨n', s⟩, hns, hmap⟩ := hmem
    cases hv : vitalTrend s.values with
    | none => rw [hv] at hmap; simp at hmap
    | some dir =>
        rw [hv] at hmap
        simp only [Option.map_some] at hmap
        obtain ⟨h₁, _⟩ := Prod.mk.injEq .. ▸ Option.some.injEq .. ▸ hmap
        cases hmap
        refine ⟨s, hns, ?_⟩
        intro hnil
        rw [(vitalTrend_eq_none_iff s.values).mpr hnil] at hv
        cases hv
  · rintro ⟨s, hmem, hne⟩
    cases hv : vitalTrend s.values with
    | none => exact absurd ((vitalTrend_eq_none_iff s.values).mp hv) hne
    | some dir =>
        refine ⟨(name, dir), ?_, rfl⟩
        rw [List.mem_filterMap]
        exact ⟨(name, s), hmem, by rw [hv]; rfl⟩

/-- C10: the `vital_trends` mapping has an entry for exactly the vitals with
a non-empty series — an empty series is omitted (not defaulted to stable),
and every vital with one or more values is assigned a direction. -/
theorem vital_trends_entry_iff_nonempty (vitals : List (String × RawSeries))
    (name : String) :
    (name ∈ (computeTrends vitals).map Prod.fst ↔
      ∃ s : RawSeries, (name, s) ∈ vitals ∧ s.values ≠ []) ∧
    (∀ s : RawSeries, (name, s) ∈ vitals → s.values ≠ [] →
      ∃ d : TrendDirection, (name, d) ∈ computeTrends vitals ∧
        vitalTrend s.values = some d) := by
  refine ⟨mem_map_fst_computeTrends vitals name, ?_⟩
  intro s hmem hne
  cases hv : vitalTrend s.values with
  | none => exact absurd ((vitalTrend_eq_none_iff s.values).mp hv) hne
  | some d =>
      refine ⟨d, ?_, rfl⟩
      unfold computeTrends
      rw [List.mem_filterMap]
      exact ⟨(name, s), hmem, by rw [hv]; rfl⟩

/-- Witness for C10: for the vitals dict
`{"heart_rate": [70, 80], "bp": []}` the key `heart_rate` is present and the
key `bp` is absent. -/
theorem vital_trends_entry_iff_nonempty_witness :
    "heart_rate" ∈ (computeTrends
        [("heart_rate", ⟨[70, 80]⟩), ("bp", ⟨[]⟩)]).map Prod.fst ∧
    "bp" ∉ (computeTrends
        [("heart_rate", ⟨[70, 80]⟩), ("bp", ⟨[]⟩)]).map Prod.fst := by
  constructor
  · exact (vital_trends_entry_iff_nonempty
      [("heart_rate", ⟨[70, 80]⟩), ("bp", ⟨[]⟩)] "heart_rate").1.mpr
      ⟨⟨[70, 80]⟩, by simp, by simp⟩
  · intro hmem
    obtain ⟨s, hs, hne⟩ := (vital_trends_entry_iff_nonempty
      [("heart_rate", ⟨[70, 80]⟩), ("bp", ⟨[]⟩)] "bp").1.mp hmem
    simp at hs
    exact hne (by rw [hs])

end Skills

namespace Skills

/-- Python `dict.get` on an insertion-ordered association list with unique
keys (first match wins). -/
def dictGet {α : Type} : List (String × α) → String → Option α
  | [], _ => none
  | (k', v) :: rest, k => if k' = k then some v else dictGet rest k

lemma dictGet_eq_none_of_not_mem {α : Type} (l : List (String × α))
    (k : String) (h : k ∉ l.map Prod.fst) : dictGet l k = none := by
  induction l with
  | nil => rfl
  | cons hd tl ih =>
      obtain ⟨k', v⟩ := hd
      simp only [List.map_cons, List.mem_cons, not_or] at h
      unfold dictGet
      rw [if_neg (fun he => h.1 he.symm)]
      exact ih h.2

lemma dictGet_cons {α : Type} (n : String) (v : α)
    (rest : List (String × α)) (k : String) :
    dictGet ((n, v) :: rest) k = if n = k then some v else dictGet rest k :=
  rfl

lemma keys_filterMap_subset {α β : Type} (f : α → Option β)
    (l : List (String × α)) (k : String)
    (h : k ∈ (l.filterMap fun nv =>
      (f nv.2).map fun v => (nv.1, v)).map Prod.fst) :
    k ∈ l.map Prod.fst := by
  rw [List.mem_map] at h
  obtain ⟨⟨n', b⟩, hmem', hfst⟩ := h
  rw [List.mem_filterMap] at hmem'
  obtain ⟨⟨n'', a'⟩, htl, hmap⟩ := hmem'
  cases hfa : f a' with
  | none => rw [hfa] at hmap; cases hmap
  | some b' =>
      rw [hfa] at hmap
      have hpair : (n'', b') = (n', b) := by simpa using hmap
      have hn : n'' = n' := congrArg Prod.fst hpair
      rw [List.mem_map]
      refine ⟨(n'', a'), htl, ?_⟩
      show n'' = k
      rw [hn]
      exact hfst

lemma dictGet_filterMap {α β : Type} (f : α → Option β)
    (l : List (String × α)) (k : String)
    (hnodup : (l.map Prod.fst).Nodup) :
    dictGet (l.filterMap fun nv => (f nv.2).map fun v => (nv.1, v)) k =
      (dictGet l k).bind f := by
  induction l with
  | nil => rfl
  | cons hd tl ih =>
      obtain ⟨n, a⟩ := hd
      simp only [List.map_cons, List.nodup_cons] at hnodup
      obtain ⟨hnotin, hnd⟩ := hnodup
      rw [List.filterMap_cons]
      cases hf : f a with
      | none =>
          simp only [hf, Option.map_none']
          rw [dictGet_cons]
          by_cases hk : n = k
          · rw [if_pos hk]
            subst hk
            have hsub : n ∉ (tl.filterMap fun nv =>
                (f nv.2).map fun v => (nv.1, v)).map Prod.fst :=
              fun hmem => hnotin (keys_filterMap_subset f tl n hmem)
            rw [dictGet_eq_none_of_not_mem _ _ hsub]
            simp [hf]
          · rw [if_neg hk]
            exact ih hnd
      | some b =>
          simp only [hf, Option.map_some']
          rw [dictGet_cons, dictGet_cons]
          by_cases hk : n = k
          · rw [if_pos hk, if_pos hk]
            simp [hf]
          · rw [if_neg hk, if_neg hk]
            exact ih hnd

end Skills

namespace Skills

/-- C5: with the dict's unique keys, looking a lab up in `recent_labs` gives
exactly the last value of its series when that series is non-empty, and
nothing when the series is empty or the lab is absent. -/
theorem recent_labs_last_value (labs : List (String × RawSeries))
    (name : String) (hnodup : (labs.map Prod.fst).Nodup) :
    dictGet (computeRecentLabs labs) name =
      (dictGet labs name).bind fun s => s.values.getLast? := by
  unfold computeRecentLabs
  exact dictGet_filterMap (fun s => s.values.getLast?) labs name hnodup

/-- Witness for C5 on the spec's example `{"CRP": [5.0, 8.0, 12.5]}` plus an
empty series: `CRP` maps to `12.5` and the empty `ALT` has no entry. -/
theorem recent_labs_last_value_witness :
    dictGet (computeRecentLabs
      [("CRP", RawSeries.mk [5, 8, 25/2]), ("ALT", RawSeries.mk [])])
      "CRP" = some (25/2) ∧
    dictGet (computeRecentLabs
      [("CRP", RawSeries.mk [5, 8, 25/2]), ("ALT", RawSeries.mk [])])
      "ALT" = none := by
  constructor
  · rw [recent_labs_last_value _ "CRP" (by simp)]
    rfl
  · rw [recent_labs_last_value _ "ALT" (by simp)]
    rfl

end Skills

namespace Skills

/-- The expression `labs.get(name, {}).get("values", [])` (`skills.py` lines 97-98,
103-104). -/
def labValues (labs : List (String × RawSeries)) (name : String) : List ℚ :=
  match dictGet labs name with
  | some s => s.values
  | none => []

/-- The last three values `values[-1], values[-2], values[-3]` of a series,
defined when the series has at least three entries. -/
def last3 (values : List ℚ) : Option (ℚ × ℚ × ℚ) :=
  match values.reverse with
  | v1 :: v2 :: v3 :: _ => some (v1, v2, v3)
  | _ => none

/-- The vitals loop of `_generate_trend_summary` (lines 90-94): append a
`"<readable name> <direction>"` part for every non-stable trend. -/
def addVitalParts (trends : List (String × TrendDirection))
    (parts : List String) : List String :=
  trends.foldl
    (fun ps nd =>
      if nd.2 ≠ TrendDirection.stable then
        ps ++ [(nd.1.replace "_" " ") ++ " " ++ nd.2.toStr]
      else ps)
    parts

/-- The CRP check of `_generate_trend_summary` (lines 97-100). -/
def addCrpPart (labs : List (String × RawSeries)) (parts : List String) :
    List String :=
  match (labValues labs "CRP").getLast? with
  | some v =>
      if v > 10 then parts ++ ["elevated CRP (" ++ toString v ++ " mg/L)"]
      else parts
  | none => parts

/-- The WBC check of `_generate_trend_summary` (lines 103-106). -/
def addWbcPart (labs : List (String × RawSeries)) (parts : List String) :
    List String :=
  match (labValues labs "WBC").getLast? with
  | some v =>
      if v > 11000 then parts ++ ["elevated WBC (" ++ toString v ++ ")"]
      else parts
  | none => parts

/-- The lab-trend loop of `_generate_trend_summary` (lines 109-115): for
every lab with ≥ 3 values whose last three readings are strictly
increasing and whose name is neither CRP nor WBC, append
`"<name> trending up"`. -/
def addLabTrendParts (labs : List (String × RawSeries))
    (parts : List String) : List String :=
  labs.foldl
    (fun ps nv =>
      match last3 nv.2.values with
      | some (v1, v2, v3) =>
          if v1 > v2 ∧ v2 > v3 then
            if nv.1 ≠ "CRP" ∧ nv.1 ≠ "WBC" then
              ps ++ [nv.1 ++ " trending up"]
            else ps
          else ps
      | none => ps)
    parts

/-- The `parts` list of `_generate_trend_summary` after all four rules ran,
in program order: vitals, CRP, WBC, other-lab trends. -/
def summaryParts (trends : List (String × TrendDirection))
    (labs : List (String × RawSeries)) : List String :=
  addLabTrendParts labs (addWbcPart labs (addCrpPart labs
    (addVitalParts trends [])))

/-- Function `_generate_trend_summary` (lines 81-117): join the collected parts with
`"; "`, or return `"all metrics stable"` when none were collected. -/
def generateTrendSummary (trends : List (String × TrendDirection))
    (labs : List (String × RawSeries)) : String :=
  let parts := summaryParts trends labs
  if parts = [] then "all metrics stable" else String.intercalate "; " parts

end Skills

namespace Skills

/-- The fragment contributed by one non-stable vital. -/
def vitalFragment (name : String) (d : TrendDirection) : String :=
  (name.replace "_" " ") ++ " " ++ d.toStr

/-- Fragments (zero or one) contributed by a single vital-trend entry. -/
def emitVital (nd : String × TrendDirection) : List String :=
  if nd.2 ≠ TrendDirection.stable then [vitalFragment nd.1 nd.2] else []

/-- Fragments (zero or one) contributed by the CRP rule. -/
def crpFragments (labs : List (String × RawSeries)) : List String :=
  match (labValues labs "CRP").getLast? with
  | some v =>
      if v > 10 then ["elevated CRP (" ++ toString v ++ " mg/L)"] else []
  | none => []

/-- Fragments (zero or one) contributed by the WBC rule. -/
def wbcFragments (labs : List (String × RawSeries)) : List String :=
  match (labValues labs "WBC").getLast? with
  | some v =>
      if v > 11000 then ["elevated WBC (" ++ toString v ++ ")"] else []
  | none => []

/-- Fragments (zero or one) contributed by one lab in the trending-up
rule. -/
def emitLabTrend (nv : String × RawSeries) : List String :=
  match last3 nv.2.values with
  | some (v1, v2, v3) =>
      if v1 > v2 ∧ v2 > v3 then
        if nv.1 ≠ "CRP" ∧ nv.1 ≠ "WBC" then [nv.1 ++ " trending up"]
        else []
      else []
  | none => []

lemma addVitalParts_eq (trends : List (String × TrendDirection))
    (parts : List String) :
    addVitalParts trends parts = parts ++ trends.flatMap emitVital := by
  induction trends generalizing parts with
  | nil => simp [addVitalParts]
  | cons nd tl ih =>
      unfold addVitalParts
      rw [List.foldl_cons]
      show addVitalParts tl _ = _
      rw [ih, List.flatMap_cons]
      by_cases h : nd.2 ≠ TrendDirection.stable
      · rw [if_pos h]
        simp [emitVital, vitalFragment, h]
      · rw [if_neg h]
        simp [emitVital, h]

lemma addCrpPart_eq (labs : List (String × RawSeries))
    (parts : List String) :
    addCrpPart labs parts = parts ++ crpFragments labs := by
  unfold addCrpPart crpFragments
  cases h : (labValues labs "CRP").getLast? with
  | none => simp
  | some v =>
      by_cases hv : v > 10
      · simp [hv]
      · simp [hv]

lemma addWbcPart_eq (labs : List (String × RawSeries))
    (parts : List String) :
    addWbcPart labs parts = parts ++ wbcFragments labs := by
  unfold addWbcPart wbcFragments
  cases h : (labValues labs "WBC").getLast? with
  | none => simp
  | some v =>
      by_cases hv : v > 11000
      · simp [hv]
      · simp [hv]

lemma addLabTrendParts_eq (labs : List (String × RawSeries))
    (parts : List String) :
    addLabTrendParts labs parts = parts ++ labs.flatMap emitLabTrend := by
  induction labs generalizing parts with
  | nil => simp [addLabTrendParts]
  | cons nv tl ih =>
      unfold addLabTrendParts
      rw [List.foldl_cons]
      show addLabTrendParts tl _ = _
      rw [ih, List.flatMap_cons]
      unfold emitLabTrend
      cases h3 : last3 nv.2.values with
      | none => simp
      | some t =>
          obtain ⟨v1, v2, v3⟩ := t
          by_cases hinc : v1 > v2 ∧ v2 > v3
          · by_cases hname : nv.1 ≠ "CRP" ∧ nv.1 ≠ "WBC"
            · simp [hinc, hname]
            · simp [hinc, hname]
          · simp [hinc]

lemma summaryParts_eq (trends : List (String × TrendDirection))
    (labs : List (String × RawSeries)) :
    summaryParts trends labs =
      trends.flatMap emitVital ++ crpFragments labs ++ wbcFragments labs ++
        labs.flatMap emitLabTrend := by
  unfold summaryParts
  rw [addVitalParts_eq, addCrpPart_eq, addWbcPart_eq, addLabTrendParts_eq]
  simp [List.append_assoc]

end Skills

namespace Skills

lemma strAppend_right_cancel (a b c : String) (h : a ++ c = b ++ c) :
    a = b := by
  have hd : (a ++ c).data = (b ++ c).data := congrArg String.data h
  simp only [String.data_append] at hd
  exact String.ext (List.append_left_injective _ hd)

lemma mem_crpFragments (labs : List (String × RawSeries)) (s : String) :
    s ∈ crpFragments labs ↔ ∃ v : ℚ,
      (labValues labs "CRP").getLast? = some v ∧ v > 10 ∧
      s = "elevated CRP (" ++ toString v ++ " mg/L)" := by
  unfold crpFragments
  cases h : (labValues labs "CRP").getLast? with
  | none => simp [h]
  | some v =>
      by_cases hv : v > 10
      · simp only [h, hv, if_true, List.mem_singleton, Option.some.injEq]
        constructor
        · intro hs; exact ⟨v, rfl, hv, hs⟩
        · rintro ⟨v', hv', _, hs⟩; rw [hs, hv']
      · simp only [h, hv, if_false, List.not_mem_nil, false_iff,
          Option.some.injEq, not_exists]
        rintro v' ⟨hv', hgt, _⟩
        exact hv (hv' ▸ hgt)

lemma mem_wbcFragments (labs : List (String × RawSeries)) (s : String) :
    s ∈ wbcFragments labs ↔ ∃ v : ℚ,
      (labValues labs "WBC").getLast? = some v ∧ v > 11000 ∧
      s = "elevated WBC (" ++ toString v ++ ")" := by
  unfold wbcFragments
  cases h : (labValues labs "WBC").getLast? with
  | none => simp [h]
  | some v =>
      by_cases hv : v > 11000
      · simp only [h, hv, if_true, List.mem_singleton, Option.some.injEq]
        constructor
        · intro hs; exact ⟨v, rfl, hv, hs⟩
        · rintro ⟨v', hv', _, hs⟩; rw [hs, hv']
      · simp only [h, hv, if_false, List.not_mem_nil, false_iff,
          Option.some.injEq, not_exists]
        rintro v' ⟨hv', hgt, _⟩
        exact hv (hv' ▸ hgt)

lemma mem_emitLabTrend (nv : String × RawSeries) (s : String) :
    s ∈ emitLabTrend nv ↔ ∃ v1 v2 v3 : ℚ,
      last3 nv.2.values = some (v1, v2, v3) ∧ v1 > v2 ∧ v2 > v3 ∧
      nv.1 ≠ "CRP" ∧ nv.1 ≠ "WBC" ∧ s = nv.1 ++ " trending up" := by
  unfold emitLabTrend
  cases h3 : last3 nv.2.values with
  | none => simp [h3]
  | some t =>
      obtain ⟨v1, v2, v3⟩ := t
      show s ∈ (if v1 > v2 ∧ v2 > v3 then
          if nv.1 ≠ "CRP" ∧ nv.1 ≠ "WBC" then [nv.1 ++ " trending up"]
          else []
        else []) ↔ _
      by_cases hinc : v1 > v2 ∧ v2 > v3
      · rw [if_pos hinc]
        by_cases hname : nv.1 ≠ "CRP" ∧ nv.1 ≠ "WBC"
        · rw [if_pos hname]
          constructor
          · intro hs
            refine ⟨v1, v2, v3, rfl, hinc.1, hinc.2, hname.1, hname.2, ?_⟩
            simpa using hs
          · rintro ⟨w1, w2, w3, hw, _, _, _, _, hs⟩
            simp [hs]
        · rw [if_neg hname]
          simp only [List.not_mem_nil, false_iff, not_exists]
          rintro w1 w2 w3 ⟨hw, _, _, hc, hwbc, _⟩
          exact hname ⟨hc, hwbc⟩
      · rw [if_neg hinc]
        simp only [List.not_mem_nil, false_iff, not_exists]
        rintro w1 w2 w3 ⟨hw, h1, h2, _⟩
        injection hw with hw
        simp only [Prod.mk.injEq] at hw
        obtain ⟨e1, e2, e3⟩ := hw
        subst e1
        subst e2
        subst e3
        exact hinc ⟨h1, h2⟩

lemma mem_emitVital (nd : String × TrendDirection) (s : String) :
    s ∈ emitVital nd ↔
      nd.2 ≠ TrendDirection.stable ∧ s = vitalFragment nd.1 nd.2 := by
  unfold emitVital
  by_cases h : nd.2 ≠ TrendDirection.stable
  · simp [h]
  · simp [h]

lemma trendingUp_not_mem (labs : List (String × RawSeries)) (bad : String)
    (hbad : bad = "CRP" ∨ bad = "WBC") :
    (bad ++ " trending up") ∉ labs.flatMap emitLabTrend := by
  intro hmem
  rw [List.mem_flatMap] at hmem
  obtain ⟨nv, hnv, hmem'⟩ := hmem
  rw [mem_emitLabTrend] at hmem'
  obtain ⟨v1, v2, v3, _, _, _, hc, hw, hs⟩ := hmem'
  have hn : bad = nv.1 := strAppend_right_cancel _ _ _ hs
  rcases hbad with h | h
  · exact hc (hn ▸ h.symm ▸ rfl)
  · exact hw (hn ▸ h.symm ▸ rfl)

end Skills

namespace Skills

/-- C2: the `elevated CRP` fragment appears iff the `CRP` lab has a last
value strictly above 10; the `elevated WBC` fragment iff the `WBC` lab has
a last value strictly above 11000; a `<name> trending up` fragment appears
for exactly the non-CRP/WBC labs whose last three values strictly increase;
`CRP` and `WBC` never produce a trending-up fragment; and each such
fragment lands in the summary's `parts`. -/
theorem elevated_lab_fragments (trends : List (String × TrendDirection))
    (labs : List (String × RawSeries)) (s : String) :
    (s ∈ crpFragments labs ↔ ∃ v : ℚ,
      (labValues labs "CRP").getLast? = some v ∧ v > 10 ∧
      s = "elevated CRP (" ++ toString v ++ " mg/L)") ∧
    (s ∈ wbcFragments labs ↔ ∃ v : ℚ,
      (labValues labs "WBC").getLast? = some v ∧ v > 11000 ∧
      s = "elevated WBC (" ++ toString v ++ ")") ∧
    (s ∈ labs.flatMap emitLabTrend ↔ ∃ nv ∈ labs, ∃ v1 v2 v3 : ℚ,
      last3 nv.2.values = some (v1, v2, v3) ∧ v1 > v2 ∧ v2 > v3 ∧
      nv.1 ≠ "CRP" ∧ nv.1 ≠ "WBC" ∧ s = nv.1 ++ " trending up") ∧
    ("CRP trending up" ∉ labs.flatMap emitLabTrend) ∧
    ("WBC trending up" ∉ labs.flatMap emitLabTrend) ∧
    (s ∈ crpFragments labs ∨ s ∈ wbcFragments labs ∨
        s ∈ labs.flatMap emitLabTrend →
      s ∈ summaryParts trends labs) := by
  refine ⟨mem_crpFragments labs s, mem_wbcFragments labs s, ?_, ?_, ?_, ?_⟩
  · rw [List.mem_flatMap]
    constructor
    · rintro ⟨nv, hnv, hmem⟩
      exact ⟨nv, hnv, (mem_emitLabTrend nv s).mp hmem⟩
    · rintro ⟨nv, hnv, hex⟩
      exact ⟨nv, hnv, (mem_emitLabTrend nv s).mpr hex⟩
  · exact trendingUp_not_mem labs "CRP" (Or.inl rfl)
  · exact trendingUp_not_mem labs "WBC" (Or.inr rfl)
  · intro hin
    rw [summaryParts_eq]
    rcases hin with h | h | h
    · exact List.mem_append_left _ (List.mem_append_left _
        (List.mem_append_right _ h))
    · exact List.mem_append_left _ (List.mem_append_right _ h)
    · exact List.mem_append_right _ h

/-- Witness for C2: for `labs = {"CRP": [5, 8, 12.5]}` the CRP rule fires
(last value `12.5 > 10`) and no trending-up fragment is produced for the
CRP lab even though its values strictly increase. -/
theorem elevated_lab_fragments_witness :
    "elevated CRP (" ++ toString (25/2 : ℚ) ++ " mg/L)" ∈
      crpFragments [("CRP", RawSeries.mk [5, 8, 25/2])] ∧
    "CRP trending up" ∉
      ([("CRP", RawSeries.mk [5, 8, 25/2])].flatMap emitLabTrend) := by
  constructor
  · exact (elevated_lab_fragments [] [("CRP", RawSeries.mk [5, 8, 25/2])]
      ("elevated CRP (" ++ toString (25/2 : ℚ) ++ " mg/L)")).1.mpr
      ⟨25/2, by rfl, by norm_num, rfl⟩
  · exact (elevated_lab_fragments [] [("CRP", RawSeries.mk [5, 8, 25/2])]
      "").2.2.2.1

/-- C3: the summary's parts decompose, in order, into the non-stable vital
fragments, the CRP fragment, the WBC fragment, and the other-lab
trending-up fragments; every non-stable vital contributes its
underscore-to-space fragment; the parts are joined with `"; "`, and an
empty parts list yields exactly `"all metrics stable"`. -/
theorem trend_summary_format (trends : List (String × TrendDirection))
    (labs : List (String × RawSeries)) (s : String) :
    (summaryParts trends labs =
      trends.flatMap emitVital ++ crpFragments labs ++ wbcFragments labs ++
        labs.flatMap emitLabTrend) ∧
    (s ∈ trends.flatMap emitVital ↔ ∃ nd ∈ trends,
      nd.2 ≠ TrendDirection.stable ∧ s = vitalFragment nd.1 nd.2) ∧
    (∀ name d, (name, d) ∈ trends → d ≠ TrendDirection.stable →
      vitalFragment name d ∈ summaryParts trends labs) ∧
    (summaryParts trends labs = [] →
      generateTrendSummary trends labs = "all metrics stable") ∧
    (summaryParts trends labs ≠ [] →
      generateTrendSummary trends labs =
        String.intercalate "; " (summaryParts trends labs)) := by
  refine ⟨summaryParts_eq trends labs, ?_, ?_, ?_, ?_⟩
  · rw [List.mem_flatMap]
    constructor
    · rintro ⟨nd, hnd, hmem⟩
      exact ⟨nd, hnd, (mem_emitVital nd s).mp hmem⟩
    · rintro ⟨nd, hnd, hex⟩
      exact ⟨nd, hnd, (mem_emitVital nd s).mpr hex⟩
  · intro name d hmem hne
    rw [summaryParts_eq]
    refine List.mem_append_left _ (List.mem_append_left _
      (List.mem_append_left _ ?_))
    rw [List.mem_flatMap]
    exact ⟨(name, d), hmem, (mem_emitVital (name, d) _).mpr ⟨hne, rfl⟩⟩
  · intro hnil
    unfold generateTrendSummary
    rw [if_pos hnil]
  · intro hne
    unfold generateTrendSummary
    rw [if_neg hne]

/-- Witness for C3: empty trends and labs give the literal
`"all metrics stable"`, and a single non-stable vital gives the joined
fragment string. -/
theorem trend_summary_format_witness :
    generateTrendSummary [] [] = "all metrics stable" ∧
    vitalFragment "heart_rate" TrendDirection.increasing ∈
      summaryParts [("heart_rate", TrendDirection.increasing)] [] := by
  constructor
  · exact (trend_summary_format [] [] "").2.2.2.1 rfl
  · exact (trend_summary_format [("heart_rate", TrendDirection.increasing)]
      [] "").2.2.1 "heart_rate" TrendDirection.increasing (by simp)
      (by decide)

end Skills

namespace Skills

/-- A patient record of the mock external store
(`data/mock_patients.json`). -/
structure PatientRecord where
  patient_id : String
  age : ℕ
  conditions : List String
  medications : List String
  labs : List (String × RawSeries)
  vitals : List (String × RawSeries)
  deriving Repr, DecidableEq

/-- The normalized output assembled by `normalize_patient`
(`schemas.PatientContext`). -/
structure PatientContext where
  patient_id : String
  age : ℕ
  conditions : List String
  medications : List String
  recent_labs : List (String × ℚ)
  vital_trends : List (String × TrendDirection)
  trend_summary : String
  deriving Repr, DecidableEq

/-- The lookup `next((p for p in patients if p["patient_id"] == patient_id), None)`
(`skills.py` line 41). -/
def findPatient (patients : List PatientRecord) (pid : String) :
    Option PatientRecord :=
  patients.find? fun p => p.patient_id == pid

/-- Function `normalize_patient` (`skills.py` lines 23-78): look the patient up in
the external store, fail with the not-found message if absent, otherwise
assemble the normalized context. -/
def normalize_patient (patients : List PatientRecord) (pid : String) :
    Except String PatientContext :=
  match findPatient patients pid with
  | none => .error ("Patient " ++ pid ++ " not found")
  | some p =>
      let trends := computeTrends p.vitals
      .ok
        { patient_id := p.patient_id
          age := p.age
          conditions := p.conditions
          medications := p.medications
          recent_labs := computeRecentLabs p.labs
          vital_trends := trends
          trend_summary := generateTrendSummary trends p.labs }

end Skills

namespace Skills

/-- C4: an identifier with no matching record makes `normalize_patient`
fail with the not-found error naming that identifier (never a default
record), while a matching record yields a normalized context and no
error. -/
theorem normalize_not_found (patients : List PatientRecord) (pid : String) :
    (findPatient patients pid = none →
      normalize_patient patients pid =
        .error ("Patient " ++ pid ++ " not found")) ∧
    (∀ p, findPatient patients pid = some p →
      ∃ c, normalize_patient patients pid = .ok c) := by
  constructor
  · intro h
    unfold normalize_patient
    rw [h]
  · intro p h
    unfold normalize_patient
    rw [h]
    exact ⟨_, rfl⟩

/-- Witness for C4: the empty store has no patient `P999`, and the call
errors with the message naming `P999`. -/
theorem normalize_not_found_witness :
    normalize_patient [] "P999" = Except.error "Patient P999 not found" := by
  have h := (normalize_not_found [] "P999").1 rfl
  rw [h]
  rfl

/-- C7: the in-scope computations are total — `normalize_patient` produces
an error exactly when the patient lookup fails, and in every other case it
returns a fully computed context; direction calculation, value extraction
and summary generation cannot themselves fail. -/
theorem normalization_total (patients : List PatientRecord) (pid : String) :
    (∃ e, normalize_patient patients pid = .error e) ↔
      findPatient patients pid = none := by
  unfold normalize_patient
  cases h : findPatient patients pid with
  | none => simp
  | some p => simp

/-- Witness for C7: on the empty store the lookup fails and an error
exists. -/
theorem normalization_total_witness :
    ∃ e, normalize_patient [] "P001" = .error e :=
  (normalization_total [] "P001").mpr rfl

end Skills

namespace Skills

/-- The shared key-value memory, string keys to stored contexts. -/
abbrev Memory := List (String × PatientContext)

/-- Reading `memory.get(key)`. -/
def memGet (m : Memory) (k : String) : Option PatientContext := dictGet m k

/-- Writing `memory.set(key, value)`: last write wins (the fresh binding shadows
any earlier one). -/
def memSet (m : Memory) (k : String) (v : PatientContext) : Memory :=
  (k, v) :: m

/-- Function `normalize_patient` viewed as a skill over the shared memory: its body
performs no memory operation, so the state passes through untouched. -/
def normalize_patient_step (patients : List PatientRecord) (pid : String)
    (m : Memory) : Memory × Except String PatientContext :=
  (m, normalize_patient patients pid)

/-- Result dict of `store_patient_context` (lines 144-149). -/
structure StoreResult where
  status : String
  patient_id : String
  memory_key : String
  context : PatientContext
  deriving Repr, DecidableEq

/-- Function `store_patient_context` (`skills.py` lines 125-149): normalize, then
write the context under `patient:<id>:context`; a normalization error
propagates and leaves the memory untouched. -/
def store_patient_context (patients : List PatientRecord) (pid : String)
    (m : Memory) : Memory × Except String StoreResult :=
  match normalize_patient patients pid with
  | .error e => (m, .error e)
  | .ok ctx =>
      let memory_key := "patient:" ++ pid ++ ":context"
      (memSet m memory_key ctx,
        .ok { status := "stored", patient_id := pid,
              memory_key := memory_key, context := ctx })

/-- C8: `normalize_patient` leaves the shared memory exactly as it was;
persistence happens only in `store_patient_context`, which changes no key
other than `patient:<id>:context` and stores the normalized context
there. -/
theorem normalize_no_memory_effect (patients : List PatientRecord)
    (pid : String) (m : Memory) (k : String) :
    ((normalize_patient_step patients pid m).1 = m) ∧
    (k ≠ "patient:" ++ pid ++ ":context" →
      memGet (store_patient_context patients pid m).1 k = memGet m k) ∧
    (∀ ctx, normalize_patient patients pid = .ok ctx →
      memGet (store_patient_context patients pid m).1
        ("patient:" ++ pid ++ ":context") = some ctx) := by
  refine ⟨rfl, ?_, ?_⟩
  · intro hk
    unfold store_patient_context
    cases h : normalize_patient patients pid with
    | error e => rfl
    | ok ctx =>
        show memGet (memSet m ("patient:" ++ pid ++ ":context") ctx) k =
          memGet m k
        unfold memGet memSet
        rw [dictGet_cons]
        rw [if_neg fun he => hk he.symm]
  · intro ctx h
    unfold store_patient_context
    rw [h]
    show memGet (memSet m ("patient:" ++ pid ++ ":context") ctx)
      ("patient:" ++ pid ++ ":context") = some ctx
    unfold memGet memSet
    rw [dictGet_cons]
    rw [if_pos rfl]

/-- Witness for C8: with one unrelated key `other` in memory, storing for
patient `P1` leaves `other` bound as before. -/
theorem normalize_no_memory_effect_witness :
    memGet (store_patient_context []
      "P1" [("other", ⟨"q", 1, [], [], [], [], ""⟩)]).1 "other" =
      some ⟨"q", 1, [], [], [], [], ""⟩ := by
  rw [(normalize_no_memory_effect [] "P1"
    [("other", ⟨"q", 1, [], [], [], [], ""⟩)] "other").2.1 (by decide)]
  rfl

end Skills

namespace Skills

/-- A notification record (`skills.py` lines 197-204). -/
structure Notification where
  type : String
  patient_id : String
  risk_level : String
  message : String
  timestamp : String
  status : String
  deriving Repr, DecidableEq

/-- Function `send_notification` (`skills.py` lines 183-209), with the wall-clock
reading `datetime.now(timezone.utc).isoformat()` made an explicit `now`
argument. -/
def send_notification (patient_id decision risk_level rationale now :
    String) : Notification :=
  { type := if decision = "escalate" then "CLINICAL_ESCALATION"
            else "MONITORING_UPDATE"
    patient_id := patient_id
    risk_level := risk_level
    message := rationale
    timestamp := now
    status := "sent" }

/-- An audit-log entry (`skills.py` lines 231-236); the arbitrary decision
payload dict is embedded as an opaque string. -/
structure LogEntry where
  patient_id : String
  decision : String
  timestamp : String
  logged_by : String
  deriving Repr, DecidableEq

/-- The per-patient decision histories held in shared memory. -/
abbrev HistoryMemory := List (String × List LogEntry)

/-- Result dict of `log_decision` (line 245). -/
structure LogResult where
  status : String
  entry : LogEntry
  deriving Repr, DecidableEq

/-- Function `log_decision` (`skills.py` lines 217-245), with the clock explicit:
build the entry, fetch the existing history (or `[]`), append, store. -/
def log_decision (pid decision now : String) (m : HistoryMemory) :
    HistoryMemory × LogResult :=
  let log_entry : LogEntry :=
    { patient_id := pid, decision := decision, timestamp := now,
      logged_by := "clinical-triage" }
  let history_key := "patient:" ++ pid ++ ":decision_history"
  let existing := (dictGet m history_key).getD []
  ((history_key, existing ++ [log_entry]) :: m,
    { status := "logged", entry := log_entry })

/-- C9 counterexample: two `send_notification` calls with identical
`patient_id`, `decision`, `risk_level` and `rationale` but different clock
readings return different records (the `timestamp` field differs), and the
same holds for the entries produced by `log_decision`; so these skills are
not deterministic in those inputs alone. -/
theorem skill_determinism_counterexample :
    send_notification "P001" "escalate" "high" "Rising inflammatory markers"
        "2025-01-01T00:00:00+00:00" ≠
      send_notification "P001" "escalate" "high"
        "Rising inflammatory markers" "2025-01-01T00:00:01+00:00" ∧
    (log_decision "P001" "escalate" "2025-01-01T00:00:00+00:00" []).2 ≠
      (log_decision "P001" "escalate" "2025-01-01T00:00:01+00:00" []).2 := by
  constructor
  · intro h
    have := congrArg Notification.timestamp h
    simp [send_notification] at this
  · intro h
    have := congrArg (fun r => r.entry.timestamp) h
    simp [log_decision] at this

/-- C9 (amended): each skill is deterministic as a function of its inputs
together with the clock reading — equal timestamps give identical outputs,
and calls differing only in the timestamp agree on every other field of
the notification, the log entry, the log status, and the updated
history. -/
theorem skill_determinism (pid decision risk rationale t1 t2 : String)
    (m : HistoryMemory) :
    (t1 = t2 →
      send_notification pid decision risk rationale t1 =
        send_notification pid decision risk rationale t2) ∧
    ((send_notification pid decision risk rationale t1).type =
        (send_notification pid decision risk rationale t2).type ∧
      (send_notification pid decision risk rationale t1).patient_id =
        (send_notification pid decision risk rationale t2).patient_id ∧
      (send_notification pid decision risk rationale t1).risk_level =
        (send_notification pid decision risk rationale t2).risk_level ∧
      (send_notification pid decision risk rationale t1).message =
        (send_notification pid decision risk rationale t2).message ∧
      (send_notification pid decision risk rationale t1).status =
        (send_notification pid decision risk rationale t2).status) ∧
    (t1 = t2 →
      log_decision pid decision t1 m = log_decision pid decision t2 m) ∧
    ((log_decision pid decision t1 m).2.entry.patient_id =
        (log_decision pid decision t2 m).2.entry.patient_id ∧
      (log_decision pid decision t1 m).2.entry.decision =
        (log_decision pid decision t2 m).2.entry.decision ∧
      (log_decision pid decision t1 m).2.entry.logged_by =
        (log_decision pid decision t2 m).2.entry.logged_by ∧
      (log_decision pid decision t1 m).2.status =
        (log_decision pid decision t2 m).2.status) := by
  refine ⟨?_, ⟨rfl, rfl, rfl, rfl, rfl⟩, ?_, ⟨rfl, rfl, rfl, rfl⟩⟩
  · rintro rfl; rfl
  · rintro rfl; rfl

/-- Witness for C9 (amended) at concrete inputs with the same clock
reading: the two notification records coincide. -/
theorem skill_determinism_witness :
    send_notification "P001" "escalate" "high" "r" "t0" =
      send_notification "P001" "escalate" "high" "r" "t0" :=
  (skill_determinism "P001" "escalate" "high" "r" "t0" "t0" []).1 rfl

end Skills
